import Mathlib

/-!
# Verification of the vc-events core against its specification

This file gives a shallow embedding of the two core source files of the
repository (`src/app/main.py` and `src/app/PcFilter.py`) and proves, or
refutes, the specified properties of

* the object-graph serializer `event_to_name_value` (main.py, lines 35-135),
* the envelope builder `create_event_message` / `get_event_id`
  (main.py, lines 138-156), and
* the property-collector subscription `PcFilter.wait`
  (PcFilter.py, lines 36-42).

Modelling conventions:

* Python values flowing into `event_to_name_value` are modelled by the
  inductive type `VVal`, one constructor per `isinstance` branch of the
  source's dispatch chain.  The branches of the chain are mutually
  exclusive on these constructors, so the chain's textual order is
  captured exactly by a single pattern match.
* Python dicts are modelled as insertion-ordered association lists
  `List (String × FlatValue)`; `dict.update({k: v})` replaces the value
  in place when the key is present and appends otherwise (`dictUpdate`).
* A raised Python exception is modelled by `Option`: `none` means the
  call raises.  The only raise site inside the serializer is the
  `binary` branch (see `event_to_name_value` below).
* The descriptor class `Object(name=..., type=..., flags=...)` of
  pyVmomi is modelled by the structure `Object` with the `name` and
  `flags` fields.  The `type` field is dropped: its only use in the
  source (main.py line 105) is to propagate a sequence's element type
  into recursive calls, and no output character ever depends on it.
  The `indent` parameter is likewise dropped: it is only incremented and
  never read.
-/

/-- Field-descriptor metadata, modelling pyVmomi's
`Object(name=..., type=..., flags=...)` (see the conventions above for
the dropped `type` field). -/
structure Object where
  name : String
  flags : Nat
deriving DecidableEq

/-- pyVmomi's `F_LINK` flag bit.  Every property proved below tests only
`flags &&& F_LINK ≠ 0`, so only the fact that `F_LINK` is a fixed nonzero
bit matters, not its numeric position. -/
def F_LINK : Nat := 1

/-- A value of the remote object model, one constructor per `isinstance`
branch of `event_to_name_value` (main.py lines 82-133):

* `nil` — Python `None`;
* `dataObject` — a `DataObject` with its class name, its `key` attribute
  (read only in the link branch) and its declared property list, each
  property carrying its descriptor and its value;
* `managedObject` — a `ManagedObject` with class name, optional
  `_serverGuid` and `_moId`;
* `list` — a Python list;
* `typeVal` — a `type` used as a value (serialized by `__name__`);
* `unknownManagedMethod` / `managedMethod` — method references;
* `boolean` — a `bool`;
* `datetime` — a `datetime`; `Iso8601.ISO8601Format` is external to the
  repository, so the node carries the already-formatted string;
* `binary` — a pyVmomi `binary` blob, carried as its byte list;
* `other` — any other value, carried as its Python `repr` string. -/
inductive VVal where
  | nil
  | dataObject (className key : String) (props : List (Object × VVal))
  | managedObject (className : String) (serverGuid : Option String) (moId : String)
  | list (elems : List VVal)
  | typeVal (name : String)
  | unknownManagedMethod (name : String)
  | managedMethod (typeName methodName : String)
  | boolean (b : Bool)
  | datetime (formatted : String)
  | binary (bytes : List Nat)
  | other (reprStr : String)

/-- The serializer's output values: `None`, strings, and dicts (modelled
as insertion-ordered association lists). -/
inductive FlatValue where
  | null
  | str (s : String)
  | record (fields : List (String × FlatValue))

mutual

/-- Decidable equality for `FlatValue` (the automatic derivation does
not handle the nesting through `List`). -/
def FlatValue.decEq : (a b : FlatValue) → Decidable (a = b)
  | .null, .null => isTrue rfl
  | .null, .str _ => isFalse (fun h => nomatch h)
  | .null, .record _ => isFalse (fun h => nomatch h)
  | .str _, .null => isFalse (fun h => nomatch h)
  | .str a, .str b =>
      if h : a = b then isTrue (by rw [h]) else isFalse (fun hh => h (FlatValue.str.inj hh))
  | .str _, .record _ => isFalse (fun h => nomatch h)
  | .record _, .null => isFalse (fun h => nomatch h)
  | .record _, .str _ => isFalse (fun h => nomatch h)
  | .record a, .record b =>
      match FlatValue.decEqList a b with
      | isTrue h => isTrue (by rw [h])
      | isFalse h => isFalse (fun hh => h (FlatValue.record.inj hh))
termination_by a => sizeOf a

/-- Decidable equality for lists of named `FlatValue`s. -/
def FlatValue.decEqList : (a b : List (String × FlatValue)) → Decidable (a = b)
  | [], [] => isTrue rfl
  | [], _ :: _ => isFalse (fun h => nomatch h)
  | _ :: _, [] => isFalse (fun h => nomatch h)
  | (k₁, v₁) :: t₁, (k₂, v₂) :: t₂ =>
      match FlatValue.decEq v₁ v₂ with
      | isTrue hv =>
          match FlatValue.decEqList t₁ t₂ with
          | isTrue ht =>
              if hk : k₁ = k₂ then isTrue (by rw [hk, hv, ht])
              else isFalse (fun h => by
                injection h with h₁ h₂
                exact hk (congrArg Prod.fst h₁))
          | isFalse ht => isFalse (fun h => by
              injection h with h₁ h₂
              exact ht h₂)
      | isFalse hv => isFalse (fun h => by
          injection h with h₁ h₂
          exact hv (congrArg Prod.snd h₁))
termination_by a => sizeOf a

end

instance : DecidableEq FlatValue := FlatValue.decEq

/-- Python truthiness of a serialized value, as tested by the source's
`if res_val:` filters (main.py lines 95 and 113): `None`, `{}` and `""`
are falsy, everything else the serializer can produce is truthy. -/
def truthy : FlatValue → Bool
  | .null => false
  | .str s => s ≠ ""
  | .record l => !l.isEmpty

/-- Python `dict.update({k: v})` on an insertion-ordered association
list: replace the value in place when `k` is already a key, append
`(k, v)` otherwise. -/
def dictUpdate : List (String × FlatValue) → String → FlatValue → List (String × FlatValue)
  | [], k, v => [(k, v)]
  | (k₀, v₀) :: rest, k, v =>
      if k₀ = k then (k, v) :: rest else (k₀, v₀) :: dictUpdate rest k v

/-- Python `d[k]` / key lookup on the association-list model. -/
def dictFind : List (String × FlatValue) → String → Option FlatValue
  | [], _ => none
  | (k₀, v₀) :: rest, k => if k₀ = k then some v₀ else dictFind rest k

/-- The keys of a dict in insertion order. -/
def dictKeys (d : List (String × FlatValue)) : List String := d.map Prod.fst

/-- The apostrophe character, written by code point to keep the source
text free of quote-escape sequences. -/
def squote : Char := Char.ofNat 39

/-- Python `repr(val).strip("'")` applied to an already-computed `repr`
string: drop every leading and trailing single quote. -/
def stripSingleQuotes (s : String) : String :=
  ⟨((s.data.dropWhile (fun c => c = squote)).reverse.dropWhile (fun c => c = squote)).reverse⟩

mutual

/-- Shallow embedding of `event_to_name_value` (main.py lines 35-135).
`name = info.name and "%s" % info.name or ""` evaluates to `info.name`
for every string, so the returned name is `info.name`.

The `binary` branch is the source's line 131,
`result = str(result, "utf-8")`: it reads the local variable `result`
before any assignment to it, so the branch raises `UnboundLocalError`
on every binary input (the intended expression was `str(val, "utf-8")`).
The raise is modelled by `none`. -/
def event_to_name_value (val : VVal) (info : Object) : Option (String × FlatValue) :=
  match val with
  | .nil => some (info.name, .null)
  | .dataObject cls key props =>
      if info.flags &&& F_LINK ≠ 0 then
        some (info.name, .str (cls ++ ":" ++ key))
      else
        match serializeFields props [] with
        | none => none
        | some r => some (info.name, .record r)
  | .managedObject cls serverGuid moId =>
      match serverGuid with
      | none => some (info.name, .str (cls ++ ":" ++ moId))
      | some g => some (info.name, .str (cls ++ ":" ++ g ++ ":" ++ moId))
  | .list elems =>
      match elems with
      | [] => some (info.name, .null)
      | e :: rest =>
          match serializeItems { name := "", flags := info.flags } (e :: rest) 1 [] with
          | none => none
          | some r => some (info.name, .record r)
  | .typeVal n => some (info.name, .str n)
  | .unknownManagedMethod n => some (info.name, .str n)
  | .managedMethod tn mn => some (info.name, .str (tn ++ "." ++ mn))
  | .boolean b => some (info.name, .str (if b then "true" else "false"))
  | .datetime formatted => some (info.name, .str formatted)
  | .binary _ => none
  | .other r => some (info.name, .str (stripSingleQuotes r))
termination_by sizeOf val

/-- The `DataObject` property loop of `event_to_name_value` (main.py
lines 89-96): serialize each declared property with its descriptor and
update the accumulated dict only when the serialized value is truthy. -/
def serializeFields (props : List (Object × VVal)) (acc : List (String × FlatValue)) :
    Option (List (String × FlatValue)) :=
  match props with
  | [] => some acc
  | (i, v) :: rest =>
      match event_to_name_value v i with
      | none => none
      | some (rn, rv) =>
          serializeFields rest (if truthy rv then dictUpdate acc rn rv else acc)
termination_by sizeOf props

/-- The list loop of `event_to_name_value` (main.py lines 108-117):
every element is serialized with the synthetic descriptor
`Object(name="", ...)`; a truthy result whose name is empty is stored
under the synthetic key `data{name_count}` and the counter advances;
any other result is dropped (the `result.update` call sits inside the
`res_name == ""` branch). -/
def serializeItems (item : Object) (elems : List VVal) (cnt : Nat)
    (acc : List (String × FlatValue)) : Option (List (String × FlatValue)) :=
  match elems with
  | [] => some acc
  | v :: rest =>
      match event_to_name_value v item with
      | none => none
      | some (rn, rv) =>
          if truthy rv then
            if rn = "" then
              serializeItems item rest (cnt + 1) (dictUpdate acc ("data" ++ toString cnt) rv)
            else
              serializeItems item rest cnt acc
          else
            serializeItems item rest cnt acc
termination_by sizeOf elems

end

/-- The `info` default of `event_to_name_value`
(`Object(name="", type=object, flags=0)`, main.py line 35). -/
def defaultInfo : Object := { name := "", flags := 0 }

/-- A vCenter event as far as `get_event_id` inspects it (main.py lines
138-147): whether it is a `vim.event.EventEx`, its `eventTypeId`
attribute, and its Python type name. -/
structure VimEvent where
  isEventEx : Bool
  eventTypeId : String
  typeName : String
deriving DecidableEq

/-- Shallow embedding of `get_event_id` (main.py lines 138-147). -/
def get_event_id (event : VimEvent) : String :=
  if event.isEventEx then event.eventTypeId else event.typeName

/-- Python `{**base, **upd}`: start from `base` and apply each entry of
`upd` in order; a colliding key keeps its position but takes the value
from `upd`. -/
def pyDictMerge (base upd : List (String × FlatValue)) : List (String × FlatValue) :=
  upd.foldl (fun acc p => dictUpdate acc p.1 p.2) base

/-- Shallow embedding of `create_event_message` (main.py lines 150-156):
`event_message = {**event_id_dict, **event_dict}`. -/
def create_event_message (event_dict : List (String × FlatValue)) (event : VimEvent)
    (vcenter_name : String) : List (String × FlatValue) :=
  let event_id := get_event_id event
  let event_id_dict : List (String × FlatValue) :=
    [("vcenter", .str vcenter_name), ("event_id", .str event_id)]
  pyDictMerge event_id_dict event_dict

/-- The result of `WaitForUpdatesEx`: the source reads only its
`version` attribute and its non-`None`-ness; `filterSet` stands for the
rest of the payload. -/
structure UpdateSet where
  version : String
  filterSet : List String
deriving DecidableEq

/-- The mutable state of a `PcFilter` instance (PcFilter.py lines
11-16).  The remote handles `obj`, `pc` and `pcFilter` are opaque to
`wait`, so they are carried as plain identifiers. -/
structure PcFilter where
  obj : String
  pc : String
  props : List String
  pcFilter : Option String
  version : String
deriving DecidableEq

/-- Shallow embedding of `PcFilter.wait` (PcFilter.py lines 36-42).
`WaitForUpdatesEx(self.version, options)` is a remote call, modelled by
its result `update` passed in as an oracle (the `timeout`, wrapped into
`options`, only parameterizes that remote call).  The method stores the
result's version when the result is non-`None` and returns the result. -/
def PcFilter.wait (s : PcFilter) (update : Option UpdateSet) : PcFilter × Option UpdateSet :=
  match update with
  | none => (s, none)
  | some u => ({ s with version := u.version }, some u)

/-- A sequence of `wait` calls, each with its own remote result, keeping
the final state. -/
def PcFilter.waitSeq (s : PcFilter) (updates : List (Option UpdateSet)) : PcFilter :=
  updates.foldl (fun st u => (PcFilter.wait st u).1) s

/-! ## Helper lemmas on the dict model -/

theorem truthy_dictUpdate (acc : List (String × FlatValue)) (k : String) (v : FlatValue)
    (hacc : ∀ p ∈ acc, truthy p.2 = true) (hv : truthy v = true) :
    ∀ p ∈ dictUpdate acc k v, truthy p.2 = true := by
  induction acc with
  | nil => simpa [dictUpdate] using hv
  | cons q rest ih =>
      obtain ⟨k₀, v₀⟩ := q
      by_cases h : k₀ = k
      · simp only [dictUpdate, if_pos h]
        intro p hp
        rcases List.mem_cons.mp hp with hp | hp
        · simpa [hp] using hv
        · exact hacc p (List.mem_cons_of_mem _ hp)
      · simp only [dictUpdate, if_neg h]
        intro p hp
        rcases List.mem_cons.mp hp with hp | hp
        · exact hacc p (by simp [hp])
        · exact ih (fun q hq => hacc q (List.mem_cons_of_mem _ hq)) p hp

theorem mem_dictKeys_dictUpdate (d : List (String × FlatValue)) (k₁ k : String) (v : FlatValue)
    (h : k ∈ dictKeys d) : k ∈ dictKeys (dictUpdate d k₁ v) := by
  induction d with
  | nil => simp [dictKeys] at h
  | cons q rest ih =>
      obtain ⟨k₀, v₀⟩ := q
      by_cases h₀ : k₀ = k₁
      · simp only [dictUpdate, if_pos h₀]
        simp only [dictKeys, List.map_cons, List.mem_cons] at h ⊢
        rcases h with h | h
        · exact Or.inl (by rw [h, h₀])
        · exact Or.inr h
      · simp only [dictUpdate, if_neg h₀]
        simp only [dictKeys, List.map_cons, List.mem_cons] at h ⊢
        rcases h with h | h
        · exact Or.inl h
        · exact Or.inr (ih h)

theorem mem_dictKeys_pyDictMerge (upd : List (String × FlatValue)) (k : String) :
    ∀ base, k ∈ dictKeys base → k ∈ dictKeys (pyDictMerge base upd) := by
  induction upd with
  | nil => intro base h; simpa [pyDictMerge] using h
  | cons p rest ih =>
      intro base h
      simp only [pyDictMerge, List.foldl_cons] at ih ⊢
      exact ih _ (mem_dictKeys_dictUpdate base p.1 k p.2 h)

theorem dictFind_dictUpdate_ne (d : List (String × FlatValue)) (k₁ k : String) (v : FlatValue)
    (h : k₁ ≠ k) : dictFind (dictUpdate d k₁ v) k = dictFind d k := by
  induction d with
  | nil => simp [dictUpdate, dictFind, if_neg h]
  | cons q rest ih =>
      obtain ⟨k₀, v₀⟩ := q
      by_cases h₀ : k₀ = k₁
      · have hk : k₀ ≠ k := by rw [h₀]; exact h
        simp [dictUpdate, if_pos h₀, dictFind, if_neg h, if_neg hk]
      · by_cases hk : k₀ = k
        · simp [dictUpdate, if_neg h₀, dictFind, if_pos hk]
        · simp [dictUpdate, if_neg h₀, dictFind, if_neg hk, ih]

theorem dictFind_pyDictMerge (upd : List (String × FlatValue)) (k : String)
    (h : ∀ p ∈ upd, p.1 ≠ k) :
    ∀ base, dictFind (pyDictMerge base upd) k = dictFind base k := by
  induction upd with
  | nil => intro base; simp [pyDictMerge]
  | cons p rest ih =>
      intro base
      simp only [pyDictMerge, List.foldl_cons]
      have h₁ : p.1 ≠ k := h p (by simp)
      have h₂ : ∀ q ∈ rest, q.1 ≠ k := fun q hq => h q (List.mem_cons_of_mem _ hq)
      calc dictFind (pyDictMerge (dictUpdate base p.1 p.2) rest) k
      _ = dictFind (dictUpdate base p.1 p.2) k := ih h₂ _
      _ = dictFind base k := dictFind_dictUpdate_ne base p.1 k p.2 h₁

/-! ## Compaction lemmas on the serializer loops -/

theorem serializeFields_truthy (props : List (Object × VVal)) :
    ∀ acc r, (∀ p ∈ acc, truthy p.2 = true) → serializeFields props acc = some r →
      ∀ p ∈ r, truthy p.2 = true := by
  induction props with
  | nil =>
      intro acc r hacc h
      simp only [serializeFields] at h
      exact (Option.some.inj h) ▸ hacc
  | cons q rest ih =>
      obtain ⟨i, v⟩ := q
      intro acc r hacc h
      simp only [serializeFields] at h
      rcases he : event_to_name_value v i with _ | ⟨rn, rv⟩ <;> simp only [he] at h
      · exact absurd h (by simp)
      · by_cases ht : truthy rv = true
        · rw [if_pos ht] at h
          exact ih _ r (truthy_dictUpdate acc rn rv hacc ht) h
        · rw [if_neg ht] at h
          exact ih _ r hacc h

theorem serializeItems_truthy (item : Object) (elems : List VVal) :
    ∀ cnt acc r, (∀ p ∈ acc, truthy p.2 = true) → serializeItems item elems cnt acc = some r →
      ∀ p ∈ r, truthy p.2 = true := by
  induction elems with
  | nil =>
      intro cnt acc r hacc h
      simp only [serializeItems] at h
      exact (Option.some.inj h) ▸ hacc
  | cons v rest ih =>
      intro cnt acc r hacc h
      simp only [serializeItems] at h
      rcases he : event_to_name_value v item with _ | ⟨rn, rv⟩ <;> simp only [he] at h
      · exact absurd h (by simp)
      · by_cases ht : truthy rv = true
        · rw [if_pos ht] at h
          by_cases hn : rn = ""
          · rw [if_pos hn] at h
            exact ih _ _ r (truthy_dictUpdate acc _ rv hacc ht) h
          · rw [if_neg hn] at h
            exact ih _ _ r hacc h
        · rw [if_neg ht] at h
          exact ih _ _ r hacc h

/-! ## Decimal representation: `Nat.repr` is injective -/

/-- The decimal digit characters of `n`, most significant first:
a recursion-friendly restatement of core's fuel-driven
`Nat.toDigitsCore`. -/
def decDigits (n : Nat) : List Char :=
  if n < 10 then [Nat.digitChar n]
  else decDigits (n / 10) ++ [Nat.digitChar (n % 10)]
termination_by n
decreasing_by
  exact Nat.div_lt_self (by omega) (by omega)

theorem digitChar_toNat_of_lt : ∀ d, d < 10 → (Nat.digitChar d).toNat = 48 + d := by decide

theorem toDigitsCore_eq_decDigits :
    ∀ fuel n ds, 0 < fuel → n < 10 ^ fuel →
      Nat.toDigitsCore 10 fuel n ds = decDigits n ++ ds := by
  intro fuel
  induction fuel with
  | zero => intro n ds h; omega
  | succ f ih =>
      intro n ds _ hn
      by_cases h : n / 10 = 0
      · have hlt : n < 10 := by omega
        rw [Nat.toDigitsCore, decDigits]
        simp [h, if_pos hlt, Nat.mod_eq_of_lt hlt]
      · have hge : 10 ≤ n := by omega
        have hf : 0 < f := by
          rcases Nat.eq_zero_or_pos f with h0 | h0
        
          · subst h0; simp at hn; omega
          · exact h0
        have hn' : n / 10 < 10 ^ f := by
          have hpow : 10 ^ (f + 1) = 10 ^ f * 10 := pow_succ 10 f
          rw [hpow, Nat.mul_comm] at hn
          exact Nat.div_lt_of_lt_mul hn
        rw [Nat.toDigitsCore]
        simp only [h, if_false]
        rw [ih (n / 10) (Nat.digitChar (n % 10) :: ds) hf hn']
        conv_rhs => rw [decDigits]
        rw [if_neg (by omega)]
        simp [List.append_assoc]

theorem lt_ten_pow_succ (n : Nat) : n < 10 ^ (n + 1) := by
  induction n with
  | zero => norm_num
  | succ k ih =>
      have hpow : 10 ^ (k + 2) = 10 ^ (k + 1) * 10 := pow_succ 10 (k + 1)
      omega

theorem toDigits_eq_decDigits (n : Nat) : Nat.toDigits 10 n = decDigits n := by
  rw [Nat.toDigits, toDigitsCore_eq_decDigits (n + 1) n [] (Nat.succ_pos n) (lt_ten_pow_succ n)]
  simp

/-- Evaluate a most-significant-first decimal digit string back to the
number it denotes. -/
def decVal (l : List Char) : Nat :=
  l.foldl (fun a c => a * 10 + (c.toNat - 48)) 0

theorem decVal_append (l : List Char) (c : Char) :
    decVal (l ++ [c]) = decVal l * 10 + (c.toNat - 48) := by
  simp [decVal, List.foldl_append]

theorem decVal_decDigits : ∀ n, decVal (decDigits n) = n := by
  intro n
  induction n using Nat.strong_induction_on with
  | _ n ih =>
      rw [decDigits]
      by_cases h : n < 10
      · rw [if_pos h]
        simp [decVal, digitChar_toNat_of_lt n h]
      · rw [if_neg h]
        rw [decVal_append, ih (n / 10) (Nat.div_lt_self (by omega) (by omega)),
          digitChar_toNat_of_lt (n % 10) (Nat.mod_lt n (by omega))]
        omega

theorem natRepr_injective (m n : Nat) (h : Nat.repr m = Nat.repr n) : m = n := by
  have hd : decDigits m = decDigits n := by
    have := congrArg String.data h
    simpa [Nat.repr, toDigits_eq_decDigits, List.asString] using this
  rw [← decVal_decDigits m, ← decVal_decDigits n, hd]

theorem natToString_injective (m n : Nat) (h : (toString m : String) = toString n) : m = n :=
  natRepr_injective m n h

/-! ## Sequence renumbering machinery -/

/-- The output mapping the specification's sequence-renumbering rule
predicts: the values in encounter order under keys `data{cnt}`,
`data{cnt+1}`, ….  Stated from the spec's words; the theorems below
compare the code's `serializeItems` against it. -/
def expectedSeqRecord : Nat → List FlatValue → List (String × FlatValue)
  | _, [] => []
  | cnt, v :: vs => ("data" ++ toString cnt, v) :: expectedSeqRecord (cnt + 1) vs

theorem dictUpdate_of_not_mem (d : List (String × FlatValue)) (k : String) (v : FlatValue)
    (h : ∀ p ∈ d, p.1 ≠ k) : dictUpdate d k v = d ++ [(k, v)] := by
  induction d with
  | nil => simp [dictUpdate]
  | cons q rest ih =>
      obtain ⟨k₀, v₀⟩ := q
      have hk : k₀ ≠ k := h (k₀, v₀) (by simp)
      simp only [dictUpdate, if_neg hk, List.cons_append, List.cons.injEq, true_and]
      exact ih (fun p hp => h p (List.mem_cons_of_mem _ hp))

theorem serializeItems_renumber (item : Object) :
    ∀ (elems : List VVal) (vals : List FlatValue) (cnt : Nat) (acc : List (String × FlatValue)),
      List.Forall₂
        (fun e v => event_to_name_value e item = some ("", v) ∧ truthy v = true) elems vals →
      (∀ p ∈ acc, ∃ j, j < cnt ∧ p.1 = "data" ++ toString j) →
      serializeItems item elems cnt acc = some (acc ++ expectedSeqRecord cnt vals) := by
  intro elems vals cnt acc hall
  induction hall generalizing cnt acc with
  | nil =>
      intro _
      simp [serializeItems, expectedSeqRecord]
  | cons hev hrest ih =>
      rename_i e v es vs
      intro hacc
      obtain ⟨he, hv⟩ := hev
      simp only [serializeItems, he, hv, if_pos, if_true, reduceIte]
      have hfresh : ∀ p ∈ acc, p.1 ≠ "data" ++ toString cnt := by
        intro p hp heq
        obtain ⟨j, hj, hpj⟩ := hacc p hp
        rw [hpj] at heq
        have : j = cnt := natToString_injective j cnt (by
          have := congrArg String.data heq
          simp only [String.data_append] at this
          have h₂ := List.append_cancel_left this
          cases hsj : toString j
          cases hsc : toString cnt
          rw [hsj, hsc] at h₂
          exact congrArg String.mk (by simpa using h₂))
        omega
      rw [dictUpdate_of_not_mem acc _ v hfresh]
      rw [ih (cnt + 1) (acc ++ [("data" ++ toString cnt, v)]) ?_]
      · simp [expectedSeqRecord, List.append_assoc]
      · intro p hp
        rcases List.mem_append.mp hp with hp | hp
        · obtain ⟨j, hj, hpj⟩ := hacc p hp
          exact ⟨j, by omega, hpj⟩
        · simp only [List.mem_singleton] at hp
          exact ⟨cnt, by omega, by rw [hp]⟩

/-! ## Claim theorems -/

/-- C3: for every Composite (`DataObject`) node whose field descriptor has
the LINK flag set, `event_to_name_value` returns the single identity
string `"<TypeName>:<key>"` and never recurses into the composite's
fields, regardless of the field list (even if empty). -/
theorem link_never_expands (cls key : String) (props : List (Object × VVal)) (info : Object)
    (h : info.flags &&& F_LINK ≠ 0) :
    event_to_name_value (.dataObject cls key props) info
      = some (info.name, .str (cls ++ ":" ++ key)) := by
  simp [event_to_name_value, h]

/-- Witness for C3: a linked composite with a non-empty field list still
serializes to its identity string. -/
theorem link_never_expands_witness :
    (1 : Nat) &&& F_LINK ≠ 0 ∧
      event_to_name_value
          (.dataObject "VmEventArgument" "vm-12" [({ name := "a", flags := 0 }, .other "x")])
          { name := "arg", flags := 1 }
        = some ("arg", .str "VmEventArgument:vm-12") :=
  ⟨by decide, link_never_expands "VmEventArgument" "vm-12" _ _ (by decide)⟩

/-- C6: a `ManagedObject` reference with no `_serverGuid` serializes as
`"TypeName:key"`, and one carrying a server identity as
`"TypeName:serverId:key"` — never the reverse ordering, and the null
server component never appears in the output. -/
theorem reference_identity_format (cls moId g : String) (info : Object) :
    event_to_name_value (.managedObject cls none moId) info
        = some (info.name, .str (cls ++ ":" ++ moId)) ∧
      event_to_name_value (.managedObject cls (some g) moId) info
        = some (info.name, .str (cls ++ ":" ++ g ++ ":" ++ moId)) := by
  constructor <;> simp [event_to_name_value]

/-- C8: a boolean primitive serializes to the literal lowercase string
token `"true"` or `"false"` (a `FlatValue.str`, never a native boolean —
the output type has no boolean variant and the branch produces `.str`). -/
theorem boolean_token (info : Object) :
    event_to_name_value (.boolean true) info = some (info.name, .str "true") ∧
      event_to_name_value (.boolean false) info = some (info.name, .str "false") := by
  constructor <;> simp [event_to_name_value]

/-- C5 (code bug): the claim says a valid-UTF-8 binary blob decodes to
its string; the `binary` branch (main.py line 131) instead reads the
uninitialized local `result`, so every binary input — valid UTF-8 or
not — raises `UnboundLocalError`.  The blob `[104, 105]` is the valid
UTF-8 text `"hi"` and still errors. -/
theorem binary_branch_raises :
    event_to_name_value (.binary [104, 105]) defaultInfo = none ∧
      ∀ (bs : List Nat) (info : Object), event_to_name_value (.binary bs) info = none := by
  refine ⟨?_, fun bs info => ?_⟩ <;> simp [event_to_name_value]

/-- C7: a `wait` call whose remote result is non-null stores that
result's version and returns the result; a null result (timeout)
returns null and leaves the stored version unchanged.  In particular
results `"5"`, null, `"9"` across three calls leave the version at
`"9"`. -/
theorem wait_version_roundtrip (s : PcFilter) (u : UpdateSet) :
    (PcFilter.wait s (some u)).1.version = u.version ∧
      (PcFilter.wait s (some u)).2 = some u ∧
      (PcFilter.wait s none).1.version = s.version ∧
      (PcFilter.wait s none).2 = none ∧
      (PcFilter.waitSeq s
          [some { version := "5", filterSet := [] }, none,
            some { version := "9", filterSet := [] }]).version = "9" := by
  refine ⟨rfl, rfl, rfl, rfl, ?_⟩
  simp [PcFilter.waitSeq, PcFilter.wait]

/-- C10 (frame effect): a `wait` call mutates at most the stored version
token; the monitored object, the property-path list, the property
collector handle and the filter handle are unchanged whether the remote
result is null or non-null. -/
theorem wait_frame (s : PcFilter) (update : Option UpdateSet) :
    (PcFilter.wait s update).1.obj = s.obj ∧
      (PcFilter.wait s update).1.props = s.props ∧
      (PcFilter.wait s update).1.pc = s.pc ∧
      (PcFilter.wait s update).1.pcFilter = s.pcFilter := by
  cases update <;> simp [PcFilter.wait]

/-- C2: the compaction invariant — whenever the serializer produces a
mapping (from a Composite's field loop or a Sequence's element loop),
every stored value is truthy: no key of the output maps to an empty
mapping, null, or the empty string, so a field or element whose
serialized value is empty never contributes a key. -/
theorem compaction_invariant (val : VVal) (info : Object) (nm : String)
    (r : List (String × FlatValue))
    (h : event_to_name_value val info = some (nm, .record r)) :
    ∀ p ∈ r, truthy p.2 = true := by
  cases val with
  | nil => simp [event_to_name_value] at h
  | dataObject cls key props =>
      simp only [event_to_name_value] at h
      by_cases hl : info.flags &&& F_LINK ≠ 0
      · simp [hl] at h
      · simp only [hl, if_false, reduceIte] at h
        rcases hs : serializeFields props [] with _ | r₀ <;> simp only [hs] at h
        · exact absurd h (by simp)
        · have h' : info.name = nm ∧ r₀ = r := by simpa using h
          rw [← h'.2]
          exact serializeFields_truthy props [] r₀ (by simp) hs
  | managedObject cls sg moId => cases sg <;> simp [event_to_name_value] at h
  | list elems =>
      cases elems with
      | nil => simp [event_to_name_value] at h
      | cons e es =>
          simp only [event_to_name_value] at h
          rcases hs : serializeItems { name := "", flags := info.flags } (e :: es) 1 []
            with _ | r₀ <;> simp only [hs] at h
          · exact absurd h (by simp)
          · have h' : info.name = nm ∧ r₀ = r := by simpa using h
            rw [← h'.2]
            exact serializeItems_truthy _ _ 1 [] r₀ (by simp) hs
  | typeVal n => simp [event_to_name_value] at h
  | unknownManagedMethod n => simp [event_to_name_value] at h
  | managedMethod tn mn => simp [event_to_name_value] at h
  | boolean b => simp [event_to_name_value] at h
  | datetime f => simp [event_to_name_value] at h
  | binary bs => simp [event_to_name_value] at h
  | other r₀ => simp [event_to_name_value] at h

/-- Witness for C2: a composite whose second field serializes to the
empty string keeps only the first field in its output. -/
theorem compaction_invariant_witness :
    event_to_name_value
        (.dataObject "VmEvent" ""
          [({ name := "a", flags := 0 }, .other "x"), ({ name := "b", flags := 0 }, .other "")])
        defaultInfo
      = some ("", .record [("a", .str "x")]) ∧
      ∀ p ∈ [("a", FlatValue.str "x")], truthy p.2 = true := by
  have hev : event_to_name_value
      (.dataObject "VmEvent" ""
        [({ name := "a", flags := 0 }, .other "x"), ({ name := "b", flags := 0 }, .other "")])
      defaultInfo
      = some ("", .record [("a", .str "x")]) := by
    simp [event_to_name_value, serializeFields, defaultInfo, F_LINK, truthy, dictUpdate,
      stripSingleQuotes, squote]
  exact ⟨hev, compaction_invariant _ _ _ _ hev⟩

/-- C9 (implicit): in the sequence loop, an element whose serialized
name is non-empty is never added to the output — the `result.update`
call sits inside the `res_name == ""` branch — even when its serialized
value is non-empty, and the loop state (accumulator and counter) is
exactly as if the element had not been there. -/
theorem named_sequence_elements_dropped (item : Object) (v : VVal) (rest : List VVal)
    (cnt : Nat) (acc : List (String × FlatValue)) (rn : String) (rv : FlatValue)
    (h₁ : event_to_name_value v item = some (rn, rv)) (h₂ : rn ≠ "") :
    serializeItems item (v :: rest) cnt acc = serializeItems item rest cnt acc := by
  simp only [serializeItems, h₁, if_neg h₂]
  split <;> rfl

/-- Witness for C9: an element serializing to the non-empty name `"nm"`
with the truthy value `"true"` is skipped by the loop. -/
theorem named_sequence_elements_dropped_witness :
    serializeItems { name := "nm", flags := 0 } [VVal.boolean true] 1 []
      = serializeItems { name := "nm", flags := 0 } [] 1 [] :=
  named_sequence_elements_dropped { name := "nm", flags := 0 } (VVal.boolean true) [] 1 []
    "nm" (.str "true") (by simp [event_to_name_value]) (by decide)

/-- C4: a non-empty sequence of anonymous elements (inside the list loop
every element's descriptor name is `""`) each serializing to a truthy
value produces exactly the keys `data1`, …, `dataN` from the 1-based
counter, with the values in encounter order; and the empty sequence
serializes to null, not an empty mapping. -/
theorem sequence_renumbering (elems : List VVal) (vals : List FlatValue) (info : Object)
    (hne : elems ≠ [])
    (h : List.Forall₂
        (fun e v =>
          event_to_name_value e { name := "", flags := info.flags } = some ("", v) ∧
            truthy v = true)
        elems vals) :
    event_to_name_value (.list elems) info
        = some (info.name, .record (expectedSeqRecord 1 vals)) ∧
      event_to_name_value (.list []) info = some (info.name, .null) := by
  constructor
  · cases elems with
    | nil => exact absurd rfl hne
    | cons e es =>
        simp only [event_to_name_value]
        rw [serializeItems_renumber _ _ vals 1 [] h (by simp)]
        simp
  · simp [event_to_name_value]

/-- Witness for C4: three anonymous composites, each serializing to a
non-empty mapping, produce the keys `data1`, `data2`, `data3` in
encounter order. -/
theorem sequence_renumbering_witness :
    event_to_name_value
        (.list
          [.dataObject "VmEventArgument" "" [({ name := "vm", flags := 0 }, .other "vm-1")],
            .dataObject "VmEventArgument" "" [({ name := "vm", flags := 0 }, .other "vm-2")],
            .dataObject "VmEventArgument" "" [({ name := "vm", flags := 0 }, .other "vm-3")]])
        { name := "args", flags := 0 }
      = some ("args", .record
          [("data1", .record [("vm", .str "vm-1")]),
            ("data2", .record [("vm", .str "vm-2")]),
            ("data3", .record [("vm", .str "vm-3")])]) := by
  have h := (sequence_renumbering
    [.dataObject "VmEventArgument" "" [({ name := "vm", flags := 0 }, .other "vm-1")],
      .dataObject "VmEventArgument" "" [({ name := "vm", flags := 0 }, .other "vm-2")],
      .dataObject "VmEventArgument" "" [({ name := "vm", flags := 0 }, .other "vm-3")]]
    [.record [("vm", .str "vm-1")], .record [("vm", .str "vm-2")], .record [("vm", .str "vm-3")]]
    { name := "args", flags := 0 } (by simp)
    (by
      refine List.Forall₂.cons ⟨?_, by decide⟩
        (List.Forall₂.cons ⟨?_, by decide⟩
          (List.Forall₂.cons ⟨?_, by decide⟩ List.Forall₂.nil)) <;>
        simp [event_to_name_value, serializeFields, F_LINK, truthy, dictUpdate,
          stripSingleQuotes, squote])).1
  rw [h]
  rfl

/-- C1 (counterexample): the claim says a colliding key in the
serialized body cannot overwrite the loop-computed `vcenter` value, but
`{**event_id_dict, **event_dict}` gives the later `event_dict`
precedence: a body carrying `"vcenter": "rogue"` makes the envelope's
`vcenter` equal `"rogue"`, not the loop's `"vc01"`. -/
theorem create_event_message_body_overwrites :
    dictFind
        (create_event_message [("vcenter", .str "rogue")]
          { isEventEx := false, eventTypeId := "", typeName := "VmPoweredOnEvent" } "vc01")
        "vcenter"
      = some (.str "rogue") ∧
      dictFind
          (create_event_message [("vcenter", .str "rogue")]
            { isEventEx := false, eventTypeId := "", typeName := "VmPoweredOnEvent" } "vc01")
          "vcenter"
        ≠ some (.str "vc01") := by
  refine ⟨rfl, ?_⟩
  simp [create_event_message, pyDictMerge, dictUpdate, dictFind, get_event_id]

/-- C1 (amended): the envelope always contains the `vcenter` and
`event_id` keys; their values are the loop-computed `vcenter_name` and
`get_event_id event` whenever the serialized body contains no colliding
key, but a colliding body key overwrites the value (later merge entries
win in `{**event_id_dict, **event_dict}`). -/
theorem create_event_message_envelope_keys :
    (∀ (d : List (String × FlatValue)) (e : VimEvent) (v : String),
        "vcenter" ∈ dictKeys (create_event_message d e v) ∧
          "event_id" ∈ dictKeys (create_event_message d e v)) ∧
      ∀ (d : List (String × FlatValue)) (e : VimEvent) (v : String),
        (∀ p ∈ d, p.1 ≠ "vcenter" ∧ p.1 ≠ "event_id") →
        dictFind (create_event_message d e v) "vcenter" = some (.str v) ∧
          dictFind (create_event_message d e v) "event_id"
            = some (.str (get_event_id e)) := by
  constructor
  · intro d e v
    constructor
    · exact mem_dictKeys_pyDictMerge d "vcenter" _ (by simp [dictKeys])
    · exact mem_dictKeys_pyDictMerge d "event_id" _ (by simp [dictKeys])
  · intro d e v hd
    constructor
    · rw [create_event_message, dictFind_pyDictMerge d "vcenter" (fun p hp => (hd p hp).1)]
      simp [dictFind]
    · rw [create_event_message, dictFind_pyDictMerge d "event_id" (fun p hp => (hd p hp).2)]
      simp [dictFind]

/-- Witness for C1 (amended): the specification's own example — vcenter
`"vc01"`, a `VmPoweredOnEvent`, body
`{"fullFormattedMessage": "VM X powered on"}` — produces an envelope
whose `vcenter` and `event_id` are the loop-computed values. -/
theorem create_event_message_envelope_keys_witness :
    dictFind
        (create_event_message [("fullFormattedMessage", .str "VM X powered on")]
          { isEventEx := false, eventTypeId := "", typeName := "VmPoweredOnEvent" } "vc01")
        "vcenter"
      = some (.str "vc01") ∧
      dictFind
          (create_event_message [("fullFormattedMessage", .str "VM X powered on")]
            { isEventEx := false, eventTypeId := "", typeName := "VmPoweredOnEvent" } "vc01")
          "event_id"
        = some (.str "VmPoweredOnEvent") :=
  create_event_message_envelope_keys.2
    [("fullFormattedMessage", .str "VM X powered on")]
    { isEventEx := false, eventTypeId := "", typeName := "VmPoweredOnEvent" } "vc01"
    (by simp)
